import Mathlib

/-!
Verification development for the t2py package (well-log dataset
preparation and Texture2Par control-file generation).

The definitions below are a shallow embedding of the Python sources:

* `src/t2py/pilot_points.py`  — `PilotPoint`, `AquitardPilotPoint`
* `src/t2py/texture2par.py`   — `InputFile`
* `src/t2py/dataset.py`       — `Dataset`

Numeric values are modelled as rationals; Python string formatting of
numbers is modelled exactly on the inputs exercised here (decimal
expansions that are exact at the requested precision).  Fallible Python
operations (formatting `None`, selecting absent columns) return `Except`.
-/

namespace T2py

/-! ## Python string helpers -/

/-- A run of `n` spaces, as produced by the Python expression
multiplying a space by `n` (empty for a non-positive count, which the
truncated subtraction on `Nat` models directly). -/
def spaces (n : Nat) : String := String.mk (List.replicate n ' ')

/-- Left-justify `s` in a field of width `w`: Python format spec `12s`
and `str.ljust`.  Strings longer than `w` are returned unchanged. -/
def ljust (w : Nat) (s : String) : String := s ++ spaces (w - s.length)

/-- Zero-pad a decimal string on the left to width `w`: the Python
format `%0.2d` applied to a natural number. -/
def zfill (w : Nat) (s : String) : String :=
  String.mk (List.replicate (w - s.length) '0') ++ s

/-- Round the nonnegative fraction `a / b` (for positive `b`) to the
nearest natural (ties upward).  CPython rounds ties of binary floats to
even; every concrete value formatted in this development is exact at the
requested precision, so no tie is ever taken. -/
def rndN (a b : Nat) : Nat := (2 * a + b) / (2 * b)

/-- The digit string of `n` zero-padded to `prec + 1` digits and split
by a decimal point `prec` digits from the right. -/
def digitsWithPoint (prec n : Nat) : String :=
  let ds := (toString n).toList
  let ds := List.replicate (prec + 1 - ds.length) '0' ++ ds
  String.mk (ds.take (ds.length - prec)) ++ "." ++
    String.mk (ds.drop (ds.length - prec))

/-- Fixed-point rendering with `prec` fractional digits: Python format
specs of the `.2f` family, computed on the reduced numerator and
denominator. -/
def fixFmt (prec : Nat) (q : ℚ) : String :=
  let sign := if q.num < 0 then "-" else ""
  sign ++ digitsWithPoint prec (rndN (q.num.natAbs * 10 ^ prec) q.den)

/-- Fuel-bounded decimal exponent of `a / b` when `b ≤ a`: the largest
`e` with `b * 10 ^ e ≤ a`. -/
def decExpUp (fuel a b : Nat) : Nat :=
  match fuel with
  | 0 => 0
  | f + 1 => if a < b * 10 then 0 else decExpUp f a (b * 10) + 1

/-- Fuel-bounded magnitude of the negative decimal exponent of `a / b`
when `0 < a < b`: the smallest `k` with `b ≤ a * 10 ^ k`. -/
def decExpDown (fuel a b : Nat) : Nat :=
  match fuel with
  | 0 => 0
  | f + 1 => if b ≤ a then 0 else decExpDown f (a * 10) b + 1

/-- Scientific-notation rendering with `prec` fractional digits: Python
format specs of the `.3e` family, including the sign-and-two-digit
exponent field.  The fuel bound of 500 covers every exponent reachable
from a double. -/
def sciFmt (prec : Nat) (q : ℚ) : String :=
  if q.num = 0 then
    "0." ++ String.mk (List.replicate prec '0') ++ "e+00"
  else
    let sign := if q.num < 0 then "-" else ""
    let a := q.num.natAbs
    let b := q.den
    let geOne := b ≤ a
    let e : Nat := if geOne then decExpUp 500 a b else decExpDown 500 a b
    let n : Nat :=
      if geOne then rndN (a * 10 ^ prec) (b * 10 ^ e)
      else rndN (a * 10 ^ (prec + e)) b
    let carry : Bool := n = 10 ^ (prec + 1)
    let n := if carry then 10 ^ prec else n
    let ei : Int := if geOne then (e : Int) else -(e : Int)
    let ei : Int := if carry then ei + 1 else ei
    let expStr := (if ei < 0 then "-" else "+") ++ zfill 2 (toString ei.natAbs)
    sign ++ digitsWithPoint prec n ++ "e" ++ expStr

/-! ## Values and formats -/

/-- A Python value appearing in a parameter slot: a number, a string, or
`None`. -/
inductive PVal where
  | num (q : ℚ)
  | str (s : String)
  | none
deriving DecidableEq, Repr

/-- The format specifications occurring in the sources: the fixed,
scientific, integer and string format specs of `str.format` and the
corresponding percent-formats, plus the percent-s conversion. -/
inductive NumFmt where
  | fixed (prec : Nat)
  | sci (prec : Nat)
  | int
  | fstr
  | pyS
deriving DecidableEq, Repr

/-- Apply a format to a value.  Formatting `None` with a numeric or
string spec raises `TypeError` in Python (modelled as `Except.error`),
as does the integer spec on a non-integer. -/
def applyFmt (f : NumFmt) (v : PVal) : Except String String :=
  match f, v with
  | .fixed p, .num q => .ok (fixFmt p q)
  | .sci p, .num q => .ok (sciFmt p q)
  | .int, .num q =>
      if q.den = 1 then .ok (toString q.num)
      else .error "TypeError: d format requires an integer"
  | .fstr, .str s => .ok s
  | .pyS, .num q =>
      if q.den = 1 then .ok (toString q.num)
      else .error "str of a non-integer float is not modelled"
  | .pyS, .str s => .ok s
  | .pyS, .none => .ok "None"
  | _, _ => .error "TypeError: unsupported format string passed to NoneType.__format__"

/-- The join-and-format of `write_line`: formats are joined with single
spaces and applied positionally to the values, failing on the first
value its format rejects (Python raises there). -/
def joinFmt : List NumFmt → List PVal → Except String String
  | [], _ => .ok ""
  | _ :: _, [] => .error "IndexError: tuple index out of range"
  | f :: fs, v :: vs => do
      let s ← applyFmt f v
      if fs.isEmpty then
        pure s
      else
        let rest ← joinFmt fs vs
        pure (s ++ " " ++ rest)

/-! ## PilotPoint (src/t2py/pilot_points.py) -/

/-- The parallel-array state of a `PilotPoint` object: parameter names,
display names, per-slot formats, estimate flags, and the value list
(which also holds the leading x, y and the trailing zone slots). -/
structure PilotPointState where
  parameters : List String
  custom_parameter_names : List String
  def_format : List NumFmt
  parameters_estimate : List Bool
  values : List PVal
deriving DecidableEq, Repr

/-- `PilotPoint.__init__` (pilot_points.py lines 10-37): ten named
parameters, thirteen value slots, formats float times six, sci times
four, float times two, int. -/
def mkPilotPoint (x y KCMin deltaKC KFMin deltaKF SsC SsF SyC SyF
    AnisoC AnisoF Zone : PVal) : PilotPointState :=
  { parameters := ["KCMin", "deltaKC", "KFMin", "deltaKF", "SsC", "SsF",
      "SyC", "SyF", "AnisoC", "AnisoF"]
    custom_parameter_names := ["KCMin", "deltaKC", "KFMin", "deltaKF", "SsC",
      "SsF", "SyC", "SyF", "AnisoC", "AnisoF"]
    def_format := List.replicate 6 (.fixed 2) ++ List.replicate 4 (.sci 3) ++
      List.replicate 2 (.fixed 2) ++ [.int]
    parameters_estimate := List.replicate 10 false
    values := [x, y, KCMin, deltaKC, KFMin, deltaKF, SsC, SsF, SyC, SyF,
      AnisoC, AnisoF, Zone] }

/-- `AquitardPilotPoint.__init__` (pilot_points.py lines 67-86): six
named parameters, nine value slots, formats float times eight, int. -/
def mkAquitardPilotPoint (x y KCMin deltaKC KFMin deltaKF
    AnisoC AnisoF Zone : PVal) : PilotPointState :=
  { parameters := ["KCMin", "deltaKC", "KFMin", "deltaKF", "AnisoC", "AnisoF"]
    custom_parameter_names := ["KCMin", "deltaKC", "KFMin", "deltaKF",
      "AnisoC", "AnisoF"]
    def_format := List.replicate 8 (.fixed 2) ++ [.int]
    parameters_estimate := List.replicate 6 false
    values := [x, y, KCMin, deltaKC, KFMin, deltaKF, AnisoC, AnisoF, Zone] }

/-- `PilotPoint.set_est_parameters` (pilot_points.py lines 62-64).  The
Python `list.index` raises on an unknown name; `List.indexOf` then
returns the length and the out-of-range `set` is a no-op, a path no
theorem below exercises. -/
def set_est_parameters (pp : PilotPointState) (pnames : List String) :
    PilotPointState :=
  let est := pnames.foldl
    (fun est name => est.set (pp.parameters.indexOf name) true)
    pp.parameters_estimate
  { pp with parameters_estimate := est }

/-- `PilotPoint.write_line` (pilot_points.py lines 39-42): the literal
data line, a newline appended. -/
def write_line (pp : PilotPointState) : Except String String := do
  let body ← joinFmt pp.def_format pp.values
  pure (body ++ "\n")

/-- One iteration of the loop in `write_template_line` (pilot_points.py
lines 47-51): when the estimate flag of parameter `i` is set, slot
`3 + i` of the format list becomes the string spec and slot `3 + i` of
the value list becomes the delimiter-wrapped placeholder token.  The
updates hit the very lists held by the object, not copies. -/
def templateStep (pp : PilotPointState) (index : Nat) (p_delimiter : String)
    (st : List NumFmt × List PVal) (i : Nat) : List NumFmt × List PVal :=
  if pp.parameters_estimate.getD i false then
    let pstring := (pp.custom_parameter_names.getD i "") ++ "_" ++
      zfill 2 (toString index)
    (st.1.set (3 + i) .fstr,
     st.2.set (3 + i) (.str (p_delimiter ++ " " ++ ljust 12 pstring ++ " " ++
       p_delimiter)))
  else st

/-- `PilotPoint.write_template_line` (pilot_points.py lines 44-53) with
the default index format `%0.2d`.  Returns the written line together
with the post-call object state: the loop assigns through
`fmt_string = self.def_format` and `temp_values = self.values`, which
alias the object lists, so the object leaves the call with the mutated
lists. -/
def write_template_line (pp : PilotPointState) (index : Nat)
    (p_delimiter : String) : Except String String × PilotPointState :=
  let n := pp.custom_parameter_names.length
  let fv := (List.range n).foldl (templateStep pp index p_delimiter)
    (pp.def_format, pp.values)
  let pp2 := { pp with def_format := fv.1, values := fv.2 }
  (write_line pp2, pp2)

/-! ## InputFile (src/t2py/texture2par.py) -/

/-- The `InputFile` state needed by the claims: detected model type, the
global parameter parallel arrays (texture2par.py lines 63-66), and the
two pilot-point collections. -/
structure InputFileState where
  modeltype : String
  parameters : List String
  custom_parameter_names : List String
  parameters_estimate : List Bool
  aquifer_pp : List PilotPointState
  aquitard_pp : List PilotPointState
deriving Repr

/-- The fixed global parameter list of `InputFile.__init__`. -/
def inputParameters : List String :=
  ["sill", "range_max", "range_min", "anisotropy", "nugget", "nkrige_wells",
   "KCk", "KFk", "KHp", "KVp", "Syp"]

/-- A freshly constructed `InputFile` with the given detected model
type: empty pilot-point lists, no parameter selected for estimation. -/
def initInputFile (modeltype : String) : InputFileState :=
  { modeltype := modeltype
    parameters := inputParameters
    custom_parameter_names := inputParameters
    parameters_estimate := List.replicate 11 false
    aquifer_pp := []
    aquitard_pp := [] }

/-- Model-type detection of `InputFile.__init__` (texture2par.py lines
49-55): extension `nam` selects MODFLOW; anything else selects IWFM and
requires a pre-processor file. -/
def mkInputFile (sim_file : String) (preproc_file : Option String) :
    Except String InputFileState :=
  if (sim_file.splitOn ".").getLastD "" = "nam" then
    .ok (initInputFile "MODFLOW")
  else
    match preproc_file with
    | Option.none => .error "Pre-processor file cannot be None for IWFM"
    | Option.some _ => .ok (initInputFile "IWFM")

/-- `InputFile.add_pilot_point` (texture2par.py lines 69-91).  The
aquitard branch appends a full `PilotPoint` whose four storage slots are
`None` — not an `AquitardPilotPoint`. -/
def add_pilot_point (fs : InputFileState) (x y KCMin deltaKC KFMin deltaKF
    SsC SsF SyC SyF AnisoC AnisoF Zone : PVal) (aquitard : Bool) :
    InputFileState :=
  if ¬ aquitard then
    { fs with aquifer_pp := fs.aquifer_pp ++
        [mkPilotPoint x y KCMin deltaKC KFMin deltaKF SsC SsF SyC SyF
          AnisoC AnisoF Zone] }
  else
    { fs with aquitard_pp := fs.aquitard_pp ++
        [mkPilotPoint x y KCMin deltaKC KFMin deltaKF .none .none .none .none
          AnisoC AnisoF Zone] }

/-- `InputFile._write_value` (texture2par.py lines 111-122): the value
is rendered first; in template mode the named parameter is looked up
(`list.index` raising on an unknown name) and, when its estimate flag is
set, the rendered value is replaced by the delimiter-wrapped
twelve-column display name before padding; the line is padded with
spaces to column forty and the slash-comment is appended. -/
def write_value (parameters custom_parameter_names : List String)
    (parameters_estimate : List Bool) (value : PVal) (number_format : NumFmt)
    (description : String) (name : String) (template_file : Bool)
    (p_delimiter : String) : Except String String := do
  let rendered ← applyFmt number_format value
  let line := " " ++ rendered
  let line ←
    if template_file then
      match parameters.indexOf? name with
      | Option.none => Except.error ("ValueError: " ++ name ++ " is not in list")
      | Option.some i =>
          pure (if parameters_estimate.getD i false then
              p_delimiter ++ " " ++
                ljust 12 (custom_parameter_names.getD i "") ++ " " ++
                p_delimiter
            else line)
    else
      pure line
  pure (line ++ spaces (40 - line.length) ++ "/ " ++ description ++ "\n")

/-! ## Dataset (src/t2py/dataset.py)

A well-log row carries the columns `add_wells_by_df` reads with its
default column-name arguments: location name, coordinates, land surface,
interval bottom depth, interval top depth (meaningful only when a
top-depth column is supplied), the per-class values, the per-class
variance values, and the per-layer HSU codes.  Missing numeric entries
are `Option.none` (pandas NaN). -/

structure Row where
  name : String
  x : ℚ
  y : ℚ
  zland : ℚ
  depth : ℚ
  top : ℚ
  classVals : List (Option ℚ)
  varVals : List (Option ℚ)
  hsuVals : List Int
deriving DecidableEq, Repr

instance : Inhabited Row := ⟨⟨"", 0, 0, 0, 0, 0, [], [], []⟩⟩

/-- The grouping tuple of the ID assignment (dataset.py line 248):
`(name_col, x_col, y_col)`. -/
def wkey (r : Row) : String × ℚ × ℚ := (r.name, r.x, r.y)

/-- The rolling well count of dataset.py line 248:
the expression `(~df[[name, x, y]].duplicated()).cumsum()` marks each
row that is the first occurrence of its tuple and takes the running sum,
so a row receives the number of distinct tuples seen up to and including
itself.  `seen` is the set of tuples already encountered, `cnt` the
running sum. -/
def assignIDsAux (seen : List (String × ℚ × ℚ)) (cnt : Nat) :
    List Row → List (Nat × Row)
  | [] => []
  | r :: rs =>
    if wkey r ∈ seen then (cnt, r) :: assignIDsAux seen cnt rs
    else (cnt + 1, r) :: assignIDsAux (wkey r :: seen) (cnt + 1) rs

/-- ID column assignment for a fresh batch (dataset.py line 248). -/
def assignIDs (rows : List Row) : List (Nat × Row) := assignIDsAux [] 0 rows

/-- Specification device for the rolling count: the number of distinct
grouping tuples of `rows` that are not already in `seen` — exactly the
total increment the rolling sum accumulates over `rows`. -/
def newKeys (seen : List (String × ℚ × ℚ)) : List Row → Nat
  | [] => 0
  | r :: rs =>
    if wkey r ∈ seen then newKeys seen rs
    else newKeys (wkey r :: seen) rs + 1

/-- Rows sharing a grouping tuple appear contiguously: whenever two
positions carry the same tuple, every position between them carries it
too.  This is the precondition under which the rolling count of
dataset.py line 248 is a per-tuple ID assignment. -/
def Contig (rows : List Row) : Prop :=
  ∀ k, k < rows.length → ∀ j, j ≤ k → ∀ i, i ≤ j →
    wkey (rows.getD i default) = wkey (rows.getD k default) →
    wkey (rows.getD j default) = wkey (rows.getD i default)

/-- The sort key of dataset.py lines 253 and 286:
ascending by `(ID, Depth)`. -/
def idDepthLE : (Nat × Row) → (Nat × Row) → Prop :=
  fun a b => a.1 < b.1 ∨ (a.1 = b.1 ∧ a.2.depth ≤ b.2.depth)

instance : DecidableRel idDepthLE := fun a b => by
  unfold idDepthLE; infer_instance

/-- `df.sort_values(by=[ID, depth_col])` (dataset.py lines 253, 286). -/
def sortByIdDepth (l : List (Nat × Row)) : List (Nat × Row) :=
  l.insertionSort idDepthLE

/-- Ascending bottom depth, the per-group sort of dataset.py line 264. -/
def depthLE : Row → Row → Prop := fun a b => a.depth ≤ b.depth

instance : DecidableRel depthLE := fun a b => by
  unfold depthLE; infer_instance

/-- `group.sort_values(by=depth_col)` (dataset.py line 264). -/
def sortByDepth (l : List Row) : List Row := l.insertionSort depthLE

/-- The point-index column (dataset.py lines 254, 287):
`df.groupby(ID).cumcount() + 1` pairs each row with one plus the number
of earlier rows carrying the same ID.  `prev` is the list of IDs already
passed. -/
def cumcountAux (prev : List Nat) :
    List (Nat × Row) → List (Nat × Nat × Row)
  | [] => []
  | (i, r) :: rest => (i, prev.count i + 1, r) :: cumcountAux (i :: prev) rest

/-- Point-index assignment over a full table. -/
def cumcount (l : List (Nat × Row)) : List (Nat × Nat × Row) :=
  cumcountAux [] l

/-- The synthetic interval of dataset.py lines 271-276: a copy of the
current row whose bottom depth becomes the current top depth, whose top
depth becomes the running previous bottom, and whose class values are
all set to NaN.  The variance and HSU columns are copied unchanged (the
loop at lines 274-275 clears only `data_class_cols`). -/
def gapRow (r : Row) (prev : ℚ) : Row :=
  { r with
    depth := r.top
    top := prev
    classVals := r.classVals.map (fun _ => Option.none) }

/-- The gap-detection loop of dataset.py lines 265-278 over one
depth-sorted group: starting from ground surface, an interval whose top
depth exceeds the running previous bottom contributes a synthetic row;
the running bottom then becomes the current interval bottom. -/
def gapRowsAux (prev : ℚ) : List Row → List Row
  | [] => []
  | r :: rs => (if prev < r.top then [gapRow r prev] else []) ++
      gapRowsAux r.depth rs

/-- The rows of the table carrying a given ID, in table order:
one group of `df.groupby(ID)`. -/
def rowsOf (l : List (Nat × Row)) (g : Nat) : List Row :=
  (l.filter (fun e => e.1 == g)).map (fun e => e.2)

/-- The distinct group keys visited by `df.groupby(ID)` (ascending, as
pandas iterates groups in sorted key order). -/
def groupIds (l : List (Nat × Row)) : List Nat :=
  ((l.map (fun e => e.1)).dedup).insertionSort (fun a b => a ≤ b)

/-- All synthetic rows produced by the loop of dataset.py lines 262-278,
tagged with the ID of the group that produced them (the copied group row
carries its ID column). -/
def fillNewRowsGo (l : List (Nat × Row)) : List Nat → List (Nat × Row)
  | [] => []
  | g :: gs => (gapRowsAux 0 (sortByDepth (rowsOf l g))).map (fun r => (g, r))
      ++ fillNewRowsGo l gs

/-- All synthetic rows of one `add_wells_by_df` call, over all groups. -/
def fillNewRows (l : List (Nat × Row)) : List (Nat × Row) :=
  fillNewRowsGo l (groupIds l)

/-- The body of `Dataset.add_wells_by_df` after validation (dataset.py
lines 247-287) for the default column arguments and no explicit
point-index column: assign IDs, sort by `(ID, Depth)`, and either take
the point indices directly or first append the synthetic gap rows,
re-sort, and recompute the point indices.  `fillTop` bundles
`depth_top_col is not None and fill_missing`. -/
def addWellsRows (rows : List Row) (fillTop : Bool) :
    List (Nat × Nat × Row) :=
  let d := sortByIdDepth (assignIDs rows)
  if fillTop then cumcount (sortByIdDepth (d ++ fillNewRows d))
  else cumcount d

/-- The `pdf` table built at dataset.py lines 289-309: the reconciled
batch with the store maximum added to every ID. -/
def batchRows (maxId : Nat) (rows : List Row) (fillTop : Bool) :
    List (Nat × Nat × Row) :=
  (addWellsRows rows fillTop).map (fun e => (maxId + e.1, e.2.1, e.2.2))

/-- The store state of a `Dataset`: the accumulated table (ID, point
index, row payload) and the running maximum ID. -/
structure DatasetState where
  maxId : Nat
  rows : List (Nat × Nat × Row)
deriving Repr

/-- Maximum of a list of naturals, zero when empty: `Series.max`
combined with the constructor convention max of an empty table is 0. -/
def natMax (l : List Nat) : Nat := l.foldr max 0

/-- The append-and-update of dataset.py lines 311-314: the batch is
concatenated to the table and `max_id` becomes the table maximum. -/
def mergeStore (st : DatasetState) (rows : List Row) (fillTop : Bool) :
    DatasetState :=
  let newRows := st.rows ++ batchRows st.maxId rows fillTop
  { maxId := natMax (newRows.map (fun e => e.1)), rows := newRows }

/-! ### The caller frame (claim about non-mutation)

pandas DataFrames are heap objects; `add_wells_by_df` receives a
reference and immediately rebinds it to a copy (dataset.py line 216),
so every later in-place operation hits the copy.  The heap is a list of
frames, a reference an index into it. -/

/-- A named-column frame: the label set (for the presence checks of
dataset.py lines 218-245) plus the typed row payloads. -/
structure Frame where
  cols : List String
  rows : List Row
deriving Repr

/-- The HSU column labels `hsu_1 .. hsu_nlay`. -/
def hsuCols (nlay : Nat) : List String :=
  (List.range nlay).map (fun i => "hsu_" ++ toString (i + 1))

/-- `Dataset.add_wells_by_df` (dataset.py lines 155-314) as a heap
transformer, with the default column-name arguments, default class and
variance column mappings, and no explicit point-index column.  Returns
the new store state, the new heap, and whether the call succeeded (a
`false` means a `ValueError` was raised after the copy was made).  The
copy allocated at line 216 sits at index `heap.length`; the in-place
column assignments and sorts of lines 247-287 rewrite only that index. -/
def add_wells_by_df (st : DatasetState) (classes : List String)
    (hasVar : Bool) (nlay : Nat) (heap : List Frame) (ref : Nat)
    (fillTop : Bool) : DatasetState × List Frame × Bool :=
  let df0 := heap.getD ref ⟨[], []⟩
  let r := heap.length
  let heap1 := heap ++ [df0]
  if ¬ (["Location", "X", "Y", "Zland", "Depth"].all
      (fun c => df0.cols.contains c)) then (st, heap1, false)
  else if ¬ (classes.all (fun c => df0.cols.contains c)) then
    (st, heap1, false)
  else if hasVar ∧ ¬ (classes.all
      (fun c => df0.cols.contains ("var_" ++ c))) then (st, heap1, false)
  else if ¬ ((hsuCols nlay).all (fun c => df0.cols.contains c)) then
    (st, heap1, false)
  else
    let produced := addWellsRows df0.rows fillTop
    let heap2 := heap1.set r
      ⟨df0.cols ++ ["ID", "n"], produced.map (fun e => e.2.2)⟩
    (mergeStore st df0.rows fillTop, heap2, true)

/-! ### Dataset.write_file (dataset.py lines 108-139) -/

/-- The dataset column schema built by `Dataset.__init__` (dataset.py
lines 50-64). -/
def datasetColumns (classes : List String) (hasVar : Bool) (nlay : Nat) :
    List String :=
  ["Location", "ID", "n", "X", "Y", "Zland", "Depth"] ++ classes ++
    (if hasVar then classes.map (fun c => "var_" ++ c) else []) ++
    hsuCols nlay

/-- The header-relabelling loop of dataset.py lines 130-132: each HSU
column name is replaced, in a copy of the schema list, by the bare layer
number. -/
def columnsToWrite (columns hsu_columns : List String) : List String :=
  (hsu_columns.enum).foldl
    (fun cols ih => cols.set (cols.indexOf ih.2) (toString (ih.1 + 1)))
    columns

/-- Models the pandas `DataFrame.to_csv` call of dataset.py lines
133-139 as far as the claims need: `to_csv` with an explicit `columns`
argument first reindexes the frame to exactly those labels (pandas
`CSVFormatter` runs `self.obj.loc[:, cols]`), which raises `KeyError`
when a requested label is not among the frame columns; otherwise the
requested labels are written as the header row.  Returns the header
labels written. -/
def toCsvSelect (frameCols requested : List String) :
    Except String (List String) :=
  if requested.all (fun c => frameCols.contains c) then .ok requested
  else .error "KeyError: requested columns not in index"

/-- `Dataset.write_file` with default arguments for a dataset whose
in-memory frame carries the schema columns (the invariant the class
maintains: the frame is created with `columns=self.columns`). -/
def dataset_write_file (classes : List String) (hasVar : Bool)
    (nlay : Nat) : Except String (List String) :=
  toCsvSelect (datasetColumns classes hasVar nlay)
    (columnsToWrite (datasetColumns classes hasVar nlay) (hsuCols nlay))

/-- The running previous bottom of the gap loop when interval `i` of a
group is inspected: ground surface for the first interval, otherwise the
bottom depth of the previous interval in the iteration order. -/
def prevDepth (prev : ℚ) (rows : List Row) : Nat → ℚ
  | 0 => prev
  | i + 1 => (rows.getD i default).depth

/-- A group of intervals is gap-free from `prev` when each interval's
top depth equals the running previous bottom. -/
def gapFree (prev : ℚ) : List Row → Bool
  | [] => true
  | r :: rs => (r.top == prev) && gapFree r.depth rs

/-! ## Claim theorems -/

/-- C4 — the claim that `write_file` can be repeated any number of times
without mutating the object fails on the code: `write_template_line`
assigns through aliases of the object's `def_format` and `values` lists,
so one template serialization permanently stores the placeholder token
and the string format in the pilot point, and a later literal
serialization emits the placeholder instead of the value. -/
theorem c4_template_write_mutates :
    (write_template_line (set_est_parameters
        (mkPilotPoint (.num (mkRat 3 2)) (.num (mkRat 5 2))
          (.num (mkRat 13 4)) (.num 4) (.num 5) (.num 6)
          (.num (mkRat 1 1000)) (.num (mkRat 1 500)) (.num (mkRat 1 10))
          (.num (mkRat 1 5)) (.num 10) (.num 10) (.num 1)) ["KCMin"])
        0 "$").2
      ≠ set_est_parameters
        (mkPilotPoint (.num (mkRat 3 2)) (.num (mkRat 5 2))
          (.num (mkRat 13 4)) (.num 4) (.num 5) (.num 6)
          (.num (mkRat 1 1000)) (.num (mkRat 1 500)) (.num (mkRat 1 10))
          (.num (mkRat 1 5)) (.num 10) (.num 10) (.num 1)) ["KCMin"]
    ∧ write_line (set_est_parameters
        (mkPilotPoint (.num (mkRat 3 2)) (.num (mkRat 5 2))
          (.num (mkRat 13 4)) (.num 4) (.num 5) (.num 6)
          (.num (mkRat 1 1000)) (.num (mkRat 1 500)) (.num (mkRat 1 10))
          (.num (mkRat 1 5)) (.num 10) (.num 10) (.num 1)) ["KCMin"])
      = Except.ok
        "1.50 2.50 3.25 4.00 5.00 6.00 1.000e-03 2.000e-03 1.000e-01 2.000e-01 10.00 10.00 1\n"
    ∧ write_line (write_template_line (set_est_parameters
        (mkPilotPoint (.num (mkRat 3 2)) (.num (mkRat 5 2))
          (.num (mkRat 13 4)) (.num 4) (.num 5) (.num 6)
          (.num (mkRat 1 1000)) (.num (mkRat 1 500)) (.num (mkRat 1 10))
          (.num (mkRat 1 5)) (.num 10) (.num 10) (.num 1)) ["KCMin"])
        0 "$").2
      = Except.ok
        "1.50 2.50 3.25 $ KCMin_00     $ 5.00 6.00 1.000e-03 2.000e-03 1.000e-01 2.000e-01 10.00 10.00 1\n" := by
  refine ⟨?_, rfl, rfl⟩
  decide

/-- C5 — counterexample to the claimed placeholder: for the pilot point
at index 0 with `KCMin` selected and delimiter `$`, the emitted token is
`$ KCMin_00     $` (the index format `%0.2d` renders 0 as `00`), and it
lands in value slot `3 + 0 = 3`, the slot of `deltaKC`, while the slot
of `KCMin` itself (slot 2) keeps its literal value. -/
theorem c5_counterexample :
    let pp := set_est_parameters
      (mkPilotPoint (.num (mkRat 3 2)) (.num (mkRat 5 2)) (.num (mkRat 13 4)) (.num 4) (.num 5)
        (.num 6) (.num (mkRat 1 1000)) (.num (mkRat 1 500)) (.num (mkRat 1 10)) (.num (mkRat 1 5))
        (.num 10) (.num 10) (.num 1)) ["KCMin"]
    let res := write_template_line pp 0 "$"
    res.1 = Except.ok
        "1.50 2.50 3.25 $ KCMin_00     $ 5.00 6.00 1.000e-03 2.000e-03 1.000e-01 2.000e-01 10.00 10.00 1\n"
      ∧ res.2.values.getD 3 (.str "") = .str "$ KCMin_00     $"
      ∧ res.2.values.getD 2 (.str "") = .num (mkRat 13 4)
      ∧ ("$ KCMin_00     $" : String) ≠ "$ KCMin_01 $" := by
  refine ⟨rfl, rfl, rfl, ?_⟩
  decide

/-- C5 (amended) — with no estimate flag set, `write_template_line`
emits the literal line of `write_line` and leaves the object unchanged;
with `KCMin` selected and any delimiter, the placeholder written for
pilot point `index` is the delimiter-wrapped, twelve-column-justified
token `KCMin_<index zero-padded to two digits>`, it is stored into value
slot 3 (the slot after the slot holding `KCMin`), the matching format
slot becomes the plain string spec, and the emitted line is the literal
serialization of that mutated state. -/
theorem c5_amended (x y KCMin deltaKC KFMin deltaKF SsC SsF SyC SyF
    AnisoC AnisoF Zone : PVal) (index : Nat) (delim : String) :
    (write_template_line
        (mkPilotPoint x y KCMin deltaKC KFMin deltaKF SsC SsF SyC SyF
          AnisoC AnisoF Zone) index delim
      = (write_line (mkPilotPoint x y KCMin deltaKC KFMin deltaKF SsC SsF
          SyC SyF AnisoC AnisoF Zone),
         mkPilotPoint x y KCMin deltaKC KFMin deltaKF SsC SsF SyC SyF
          AnisoC AnisoF Zone))
    ∧ (let pp := set_est_parameters
        (mkPilotPoint x y KCMin deltaKC KFMin deltaKF SsC SsF SyC SyF
          AnisoC AnisoF Zone) ["KCMin"]
       let pp2 : PilotPointState :=
        { pp with
          def_format := pp.def_format.set 3 .fstr
          values := pp.values.set 3 (.str (delim ++ " " ++
            ljust 12 ("KCMin_" ++ zfill 2 (toString index)) ++ " " ++
            delim)) }
       write_template_line pp index delim = (write_line pp2, pp2)) :=
  ⟨rfl, rfl⟩

/-- C6 — the claim that `write_file` emits a reduced nine-field line per
aquitard pilot point fails on the code: `add_pilot_point` appends a full
`PilotPoint` whose storage slots are `None` (not an
`AquitardPilotPoint`), so literal serialization raises `TypeError` when
the scientific format meets `None`; the `AquitardPilotPoint` class,
which `InputFile` never instantiates, would have produced the reduced
line. -/
theorem c6_aquitard_write_line_fails :
    (add_pilot_point (initInputFile "MODFLOW") (.num (mkRat 3 2))
        (.num (mkRat 5 2)) (.num (mkRat 1 2)) (.num (mkRat 3 2))
        (.num (mkRat 1 4)) (.num (mkRat 3 4)) (.num (mkRat 1 1000))
        (.num (mkRat 1 500)) (.num (mkRat 1 10)) (.num (mkRat 1 5))
        (.num 10) (.num 10) (.num 1) true).aquitard_pp.map write_line
      = [Except.error
          "TypeError: unsupported format string passed to NoneType.__format__"]
    ∧ write_line (mkAquitardPilotPoint (.num (mkRat 3 2)) (.num (mkRat 5 2))
        (.num (mkRat 1 2)) (.num (mkRat 3 2)) (.num (mkRat 1 4))
        (.num (mkRat 3 4)) (.num 10) (.num 10) (.num 1))
      = Except.ok "1.50 2.50 0.50 1.50 0.25 0.75 10.00 10.00 1\n" :=
  ⟨rfl, rfl⟩

/-- C8 — the claim that `Dataset.write_file` writes HSU header labels as
bare layer numbers fails on the code: the renamed labels are passed to
`to_csv` as its `columns` selection argument (not as `header` aliases),
and the frame has no column named `1`, so the call raises `KeyError`
instead of writing the table. -/
theorem c8_write_file_keyerror :
    dataset_write_file [] false 1
        = Except.error "KeyError: requested columns not in index"
      ∧ columnsToWrite (datasetColumns [] false 1) (hsuCols 1)
        = ["Location", "ID", "n", "X", "Y", "Zland", "Depth", "1"]
      ∧ ¬ ("1" ∈ datasetColumns [] false 1) := by
  refine ⟨rfl, rfl, ?_⟩
  decide

instance : IsTrans (Nat × Row) idDepthLE where
  trans a b c hab hbc := by
    unfold idDepthLE at *
    rcases hab with h1 | ⟨h1, h2⟩ <;> rcases hbc with h3 | ⟨h3, h4⟩
    · exact Or.inl (lt_trans h1 h3)
    · exact Or.inl (h3 ▸ h1)
    · exact Or.inl (h1 ▸ h3)
    · exact Or.inr ⟨h1.trans h3, h2.trans h4⟩

instance : IsTotal (Nat × Row) idDepthLE where
  total a b := by
    unfold idDepthLE
    rcases lt_trichotomy a.1 b.1 with h | h | h
    · exact Or.inl (Or.inl h)
    · rcases le_total a.2.depth b.2.depth with hd | hd
      · exact Or.inl (Or.inr ⟨h, hd⟩)
      · exact Or.inr (Or.inr ⟨h.symm, hd⟩)
    · exact Or.inr (Or.inl h)

instance : IsTrans Row depthLE where
  trans a b c hab hbc := le_trans hab hbc

instance : IsTotal Row depthLE where
  total a b := le_total a.depth b.depth

theorem sortByIdDepth_pairwise (l : List (Nat × Row)) :
    (sortByIdDepth l).Pairwise idDepthLE :=
  List.sorted_insertionSort idDepthLE l

theorem sortByIdDepth_perm (l : List (Nat × Row)) :
    List.Perm (sortByIdDepth l) l :=
  List.perm_insertionSort idDepthLE l

theorem cumcountAux_strip (prev : List Nat) (l : List (Nat × Row)) :
    (cumcountAux prev l).map (fun e => (e.1, e.2.2)) = l := by
  induction l generalizing prev with
  | nil => rfl
  | cons hd tl ih =>
      obtain ⟨i, r⟩ := hd
      simp [cumcountAux, ih]

theorem cumcountAux_filter (q : Nat → Bool) (g0 : Nat)
    (hq : ∀ a, (q a = true) ↔ a = g0) (l : List (Nat × Row)) :
    ∀ prev : List Nat,
      ((cumcountAux prev l).filter (fun e => q e.1)).map (fun e => e.2.1)
        = List.range' (prev.count g0 + 1)
            (((cumcountAux prev l).filter (fun e => q e.1)).length) := by
  induction l with
  | nil => intro prev; rfl
  | cons hd tl ih =>
      intro prev
      obtain ⟨i, r⟩ := hd
      by_cases hqi : q i = true
      · have hg : i = g0 := (hq i).1 hqi
        subst hg
        simp only [cumcountAux, List.filter_cons, hqi, if_pos, List.map_cons,
          List.length_cons]
        rw [List.range'_succ _ _ 1, ih (i :: prev),
          List.count_cons_self]
      · simp only [cumcountAux, List.filter_cons, hqi]
        simp only [Bool.false_eq_true, if_false]
        have hne : i ≠ g0 := fun h => hqi ((hq i).2 h)
        rw [ih (i :: prev), List.count_cons_of_ne (Ne.symm hne)]

theorem cumcount_pairwise_strip (X : List (Nat × Row)) :
    (cumcount (sortByIdDepth X)).Pairwise
      (fun a b => idDepthLE (a.1, a.2.2) (b.1, b.2.2)) := by
  have h := sortByIdDepth_pairwise X
  rw [← cumcountAux_strip [] (sortByIdDepth X)] at h
  exact List.pairwise_map.1 h

/-- The per-group point-index property of the pipeline tail
`cumcount (sortByIdDepth X)` followed by the store ID offset: the point
indices of any group form the contiguous sequence from one, listed in
nondecreasing bottom-depth order. -/
theorem point_index_spec (X : List (Nat × Row)) (maxId g : Nat) :
    (((cumcount (sortByIdDepth X)).map
          (fun e => (maxId + e.1, e.2.1, e.2.2))).filter
        (fun e => e.1 == g)).map (fun e => e.2.1)
      = List.range' 1
          ((((cumcount (sortByIdDepth X)).map
              (fun e => (maxId + e.1, e.2.1, e.2.2))).filter
            (fun e => e.1 == g)).length)
    ∧ (((cumcount (sortByIdDepth X)).map
          (fun e => (maxId + e.1, e.2.1, e.2.2))).filter
        (fun e => e.1 == g)).Pairwise
        (fun a b => a.2.2.depth ≤ b.2.2.depth) := by
  rw [List.filter_map]
  set l := cumcount (sortByIdDepth X) with hl
  set off : Nat × Nat × Row → Nat × Nat × Row :=
    fun e => (maxId + e.1, e.2.1, e.2.2) with hoff
  constructor
  · rw [List.map_map, List.length_map]
    by_cases hge : maxId ≤ g
    · have hq : ∀ a, ((fun a => maxId + a == g) a = true) ↔ a = g - maxId := by
        intro a
        rw [beq_iff_eq]
        omega
      have := cumcountAux_filter (fun a => maxId + a == g) (g - maxId) hq
        (sortByIdDepth X) []
      simpa using this
    · have hnil : l.filter ((fun e => e.1 == g) ∘ off) = [] := by
        apply List.filter_eq_nil_iff.2
        intro e _
        simp only [hoff, Function.comp, beq_iff_eq]
        omega
      rw [hnil]
      rfl
  · have hpw : (l.filter ((fun e => e.1 == g) ∘ off)).Pairwise
        (fun a b => idDepthLE (a.1, a.2.2) (b.1, b.2.2)) :=
      (cumcount_pairwise_strip X).sublist (List.filter_sublist l)
    refine List.pairwise_map.2 (hpw.imp_of_mem ?_)
    intro a b ha hb hab
    have ha2 := (List.mem_filter.1 ha).2
    have hb2 := (List.mem_filter.1 hb).2
    simp only [hoff, Function.comp, beq_iff_eq] at ha2 hb2
    have hid : a.1 = b.1 := by omega
    rcases hab with h | ⟨_, h⟩
    · exact absurd (hid ▸ h) (lt_irrefl _)
    · exact h

theorem spaces_length (n : Nat) : (spaces n).length = n := by
  simp [spaces, String.length]

theorem indexOf?_isSome_of_mem {l : List String} {a : String} (h : a ∈ l) :
    ∃ i, l.indexOf? a = some i := by
  rcases hi : l.indexOf? a with _ | i
  · rw [List.indexOf?, List.findIdx?_eq_none_iff] at hi
    have := hi a h
    simp at this
  · exact ⟨i, rfl⟩

/-- C7 — the control-file value writer emits one leading space and the
rendered value (or, in template mode with the estimate flag of the named
parameter set, the delimiter-wrapped display name left-justified to
twelve characters), pads the prefix with spaces to column forty, and
appends the slash comment and a newline; an over-long prefix is neither
truncated nor rejected, the comment following it immediately. -/
theorem c7_write_value_layout
    (parameters custom_parameter_names : List String)
    (parameters_estimate : List Bool) (value : PVal) (number_format : NumFmt)
    (description name p_delimiter : String) (template_file : Bool)
    (rendered : String)
    (hr : applyFmt number_format value = Except.ok rendered)
    (hn : template_file = true → name ∈ parameters) :
    ∃ pre : String,
      write_value parameters custom_parameter_names parameters_estimate value
          number_format description name template_file p_delimiter
        = Except.ok (pre ++ spaces (40 - pre.length) ++ "/ " ++ description ++
            "\n")
      ∧ (pre ++ spaces (40 - pre.length)).length = max 40 pre.length
      ∧ (∀ i, parameters.indexOf? name = some i → template_file = true →
          parameters_estimate.getD i false = true →
          pre = p_delimiter ++ " " ++
            ljust 12 (custom_parameter_names.getD i "") ++ " " ++ p_delimiter)
      ∧ ((template_file = false ∨ ∀ i, parameters.indexOf? name = some i →
          parameters_estimate.getD i false = false) → pre = " " ++ rendered)
      ∧ (40 ≤ pre.length →
          write_value parameters custom_parameter_names parameters_estimate
              value number_format description name template_file p_delimiter
            = Except.ok (pre ++ "/ " ++ description ++ "\n")) := by
  have hlen : ∀ pre : String,
      (pre ++ spaces (40 - pre.length)).length = max 40 pre.length := by
    intro pre
    rw [String.length_append, spaces_length]
    omega
  have hdeg : ∀ pre : String, 40 ≤ pre.length →
      pre ++ spaces (40 - pre.length) = pre := by
    intro pre h
    have h0 : 40 - pre.length = 0 := by omega
    rw [h0]
    exact String.append_empty pre
  cases template_file with
  | false =>
      have hw : write_value parameters custom_parameter_names
          parameters_estimate value number_format description name false
          p_delimiter
        = Except.ok ((" " ++ rendered) ++
            spaces (40 - (" " ++ rendered).length) ++ "/ " ++ description ++
            "\n") := by
        unfold write_value
        rw [hr]
        rfl
      refine ⟨" " ++ rendered, hw, hlen _, ?_, fun _ => rfl, ?_⟩
      · intro i _ ht
        exact absurd ht (by simp)
      · intro h40
        rw [hdeg _ h40] at hw
        exact hw
  | true =>
      obtain ⟨i, hi⟩ := indexOf?_isSome_of_mem (hn rfl)
      cases hflag : parameters_estimate.getD i false with
      | false =>
          have hw : write_value parameters custom_parameter_names
              parameters_estimate value number_format description name true
              p_delimiter
            = Except.ok ((" " ++ rendered) ++
                spaces (40 - (" " ++ rendered).length) ++ "/ " ++
                description ++ "\n") := by
            unfold write_value
            rw [hr, hi]
            show Except.ok ((if parameters_estimate.getD i false = true then
                p_delimiter ++ " " ++
                  ljust 12 (custom_parameter_names.getD i "") ++ " " ++
                  p_delimiter
              else " " ++ rendered) ++
              spaces (40 - (if parameters_estimate.getD i false = true then
                p_delimiter ++ " " ++
                  ljust 12 (custom_parameter_names.getD i "") ++ " " ++
                  p_delimiter
              else " " ++ rendered).length) ++ "/ " ++ description ++ "\n")
              = _
            rw [hflag]
            rfl
          refine ⟨" " ++ rendered, hw, hlen _, ?_, fun _ => rfl, ?_⟩
          · intro i2 hi2 _ hflag2
            rw [hi] at hi2
            cases hi2
            rw [hflag] at hflag2
            cases hflag2
          · intro h40
            rw [hdeg _ h40] at hw
            exact hw
      | true =>
          have hw : write_value parameters custom_parameter_names
              parameters_estimate value number_format description name true
              p_delimiter
            = Except.ok ((p_delimiter ++ " " ++
                ljust 12 (custom_parameter_names.getD i "") ++ " " ++
                p_delimiter) ++
                spaces (40 - (p_delimiter ++ " " ++
                  ljust 12 (custom_parameter_names.getD i "") ++ " " ++
                  p_delimiter).length) ++ "/ " ++ description ++ "\n") := by
            unfold write_value
            rw [hr, hi]
            show Except.ok ((if parameters_estimate.getD i false = true then
                p_delimiter ++ " " ++
                  ljust 12 (custom_parameter_names.getD i "") ++ " " ++
                  p_delimiter
              else " " ++ rendered) ++
              spaces (40 - (if parameters_estimate.getD i false = true then
                p_delimiter ++ " " ++
                  ljust 12 (custom_parameter_names.getD i "") ++ " " ++
                  p_delimiter
              else " " ++ rendered).length) ++ "/ " ++ description ++ "\n")
              = _
            rw [hflag]
            rfl
          refine ⟨p_delimiter ++ " " ++
            ljust 12 (custom_parameter_names.getD i "") ++ " " ++ p_delimiter,
            hw, hlen _, ?_, ?_, ?_⟩
          · intro i2 hi2 _ _
            rw [hi] at hi2
            cases hi2
            rfl
          · intro h
            rcases h with h | h
            · cases h
            · have hx := h i hi
              rw [hflag] at hx
              cases hx
          · intro h40
            rw [hdeg _ h40] at hw
            exact hw

/-- Witness for C7: the sill parameter selected for estimation in
template mode with delimiter dollar. -/
theorem c7_write_value_layout_witness :
    ∃ pre : String,
      write_value inputParameters inputParameters
          (true :: List.replicate 10 false) (.num 1) (.fixed 4) "Sill" "sill"
          true "$"
        = Except.ok (pre ++ spaces (40 - pre.length) ++ "/ " ++ "Sill" ++
            "\n")
      ∧ (pre ++ spaces (40 - pre.length)).length = max 40 pre.length
      ∧ (∀ i, inputParameters.indexOf? "sill" = some i → true = true →
          (true :: List.replicate 10 false).getD i false = true →
          pre = "$" ++ " " ++ ljust 12 (inputParameters.getD i "") ++ " " ++
            "$")
      ∧ ((true = false ∨ ∀ i, inputParameters.indexOf? "sill" = some i →
          (true :: List.replicate 10 false).getD i false = false) →
          pre = " " ++ "1.0000")
      ∧ (40 ≤ pre.length →
          write_value inputParameters inputParameters
              (true :: List.replicate 10 false) (.num 1) (.fixed 4) "Sill"
              "sill" true "$"
            = Except.ok (pre ++ "/ " ++ "Sill" ++ "\n")) :=
  c7_write_value_layout inputParameters inputParameters
    (true :: List.replicate 10 false) (.num 1) (.fixed 4) "Sill" "sill" "$"
    true "1.0000" rfl (fun _ => by decide)

theorem prevDepth_cons (prev : ℚ) (r : Row) (rs : List Row) (i : Nat) :
    prevDepth prev (r :: rs) (i + 1) = prevDepth r.depth rs i := by
  cases i <;> rfl

/-- C3 (amended) — during gap filling, every interval whose top depth
exceeds the running previous bottom contributes a synthetic row that
copies the non-depth fields of the current row — including its variance
and HSU values, which are copied, not blanked — with top depth equal to
the running previous bottom, bottom depth equal to the interval's top
depth, and every classification value set to the missing marker. -/
theorem c3_amended (prev : ℚ) (rows : List Row) (i : Nat)
    (hi : i < rows.length)
    (hgap : prevDepth prev rows i < (rows.getD i default).top) :
    ∃ r2 ∈ gapRowsAux prev rows,
      r2.name = (rows.getD i default).name
      ∧ r2.x = (rows.getD i default).x
      ∧ r2.y = (rows.getD i default).y
      ∧ r2.zland = (rows.getD i default).zland
      ∧ r2.top = prevDepth prev rows i
      ∧ r2.depth = (rows.getD i default).top
      ∧ r2.classVals
          = (rows.getD i default).classVals.map (fun _ => Option.none)
      ∧ r2.varVals = (rows.getD i default).varVals
      ∧ r2.hsuVals = (rows.getD i default).hsuVals := by
  induction rows generalizing prev i with
  | nil => cases hi
  | cons r rs ih =>
      cases i with
      | zero =>
          refine ⟨gapRow r prev, ?_, rfl, rfl, rfl, rfl, rfl, rfl, rfl, rfl,
            rfl⟩
          have hpr : prev < r.top := hgap
          unfold gapRowsAux
          rw [if_pos hpr]
          exact List.mem_append_left _ (List.mem_singleton_self _)
      | succ j =>
          have hj : j < rs.length := Nat.lt_of_succ_lt_succ hi
          have hgap2 : prevDepth r.depth rs j < (rs.getD j default).top := by
            rw [← prevDepth_cons prev r rs j]
            exact hgap
          obtain ⟨r2, hmem, hprops⟩ := ih r.depth j hj hgap2
          refine ⟨r2, List.mem_append_right _ hmem, ?_⟩
          rw [prevDepth_cons prev r rs j]
          exact hprops

/-- Witness for C3 (amended): a single interval from depth 2 to 5 with
one classification and one variance value, reconciled from ground
surface. -/
theorem c3_amended_witness :
    ∃ r2 ∈ gapRowsAux 0 [⟨"W", 0, 0, 9, 5, 2, [some 3], [some 7], []⟩],
      r2.name = (([⟨"W", 0, 0, 9, 5, 2, [some 3], [some 7],
          []⟩] : List Row).getD 0 default).name
      ∧ r2.x = (([⟨"W", 0, 0, 9, 5, 2, [some 3], [some 7],
          []⟩] : List Row).getD 0 default).x
      ∧ r2.y = (([⟨"W", 0, 0, 9, 5, 2, [some 3], [some 7],
          []⟩] : List Row).getD 0 default).y
      ∧ r2.zland = (([⟨"W", 0, 0, 9, 5, 2, [some 3], [some 7],
          []⟩] : List Row).getD 0 default).zland
      ∧ r2.top = prevDepth 0 [⟨"W", 0, 0, 9, 5, 2, [some 3], [some 7], []⟩] 0
      ∧ r2.depth = (([⟨"W", 0, 0, 9, 5, 2, [some 3], [some 7],
          []⟩] : List Row).getD 0 default).top
      ∧ r2.classVals = (([⟨"W", 0, 0, 9, 5, 2, [some 3], [some 7],
          []⟩] : List Row).getD 0 default).classVals.map
            (fun _ => Option.none)
      ∧ r2.varVals = (([⟨"W", 0, 0, 9, 5, 2, [some 3], [some 7],
          []⟩] : List Row).getD 0 default).varVals
      ∧ r2.hsuVals = (([⟨"W", 0, 0, 9, 5, 2, [some 3], [some 7],
          []⟩] : List Row).getD 0 default).hsuVals :=
  c3_amended 0 [⟨"W", 0, 0, 9, 5, 2, [some 3], [some 7], []⟩] 0
    (by decide) (by decide)

theorem gapRowsAux_eq_nil (prev : ℚ) (l : List Row)
    (h : gapFree prev l = true) : gapRowsAux prev l = [] := by
  induction l generalizing prev with
  | nil => rfl
  | cons r rs ih =>
      rw [gapFree, Bool.and_eq_true] at h
      obtain ⟨h1, h2⟩ := h
      have htop : r.top = prev := beq_iff_eq.1 h1
      unfold gapRowsAux
      rw [if_neg (by rw [htop]; exact lt_irrefl prev), List.nil_append,
        ih r.depth h2]

theorem rowsOf_pairwise (X : List (Nat × Row)) (g : Nat) :
    (rowsOf (sortByIdDepth X) g).Pairwise depthLE := by
  have hf : ((sortByIdDepth X).filter (fun e => e.1 == g)).Pairwise
      idDepthLE :=
    (sortByIdDepth_pairwise X).sublist (List.filter_sublist _)
  refine List.pairwise_map.2 (hf.imp_of_mem ?_)
  intro a b ha hb hab
  have ha2 := (List.mem_filter.1 ha).2
  have hb2 := (List.mem_filter.1 hb).2
  rw [beq_iff_eq] at ha2 hb2
  rcases hab with hlt | ⟨_, hle⟩
  · exact absurd ((ha2.trans hb2.symm) ▸ hlt) (lt_irrefl _)
  · exact hle

theorem fillNewRowsGo_nil (d : List (Nat × Row)) (gs : List Nat)
    (h : ∀ g ∈ gs, gapRowsAux 0 (sortByDepth (rowsOf d g)) = []) :
    fillNewRowsGo d gs = [] := by
  induction gs with
  | nil => rfl
  | cons g gs ih =>
      unfold fillNewRowsGo
      rw [h g (List.mem_cons_self g gs), ih (fun g2 hg2 =>
        h g2 (List.mem_cons_of_mem g hg2))]
      rfl

/-- C9 — gap-filling idempotence: when every well group of the batch is
already gap-free (each interval's top depth equals the previous bottom,
the first top being the ground surface) in its sorted order, running
`add_wells_by_df` with gap filling enabled synthesizes no rows, and the
output coincides with the no-gap-filling path. -/
theorem c9_gap_filling_idempotent (rows : List Row)
    (h : ∀ g ∈ groupIds (sortByIdDepth (assignIDs rows)),
      gapFree 0 (rowsOf (sortByIdDepth (assignIDs rows)) g) = true) :
    addWellsRows rows true = addWellsRows rows false := by
  have hnil : fillNewRows (sortByIdDepth (assignIDs rows)) = [] := by
    unfold fillNewRows
    apply fillNewRowsGo_nil
    intro g hg
    have hsorted : (rowsOf (sortByIdDepth (assignIDs rows)) g).Pairwise
        depthLE := rowsOf_pairwise (assignIDs rows) g
    have hid : sortByDepth (rowsOf (sortByIdDepth (assignIDs rows)) g)
        = rowsOf (sortByIdDepth (assignIDs rows)) g :=
      List.Sorted.insertionSort_eq hsorted
    rw [hid]
    exact gapRowsAux_eq_nil 0 _ (h g hg)
  have hid2 : sortByIdDepth (sortByIdDepth (assignIDs rows))
      = sortByIdDepth (assignIDs rows) :=
    List.Sorted.insertionSort_eq (sortByIdDepth_pairwise (assignIDs rows))
  show cumcount (sortByIdDepth (sortByIdDepth (assignIDs rows) ++
      fillNewRows (sortByIdDepth (assignIDs rows))))
    = cumcount (sortByIdDepth (assignIDs rows))
  rw [hnil, List.append_nil, hid2]

/-- Witness for C9: one well with the gap-free intervals from 0 to 5 and
from 5 to 12. -/
theorem c9_gap_filling_idempotent_witness :
    addWellsRows [⟨"W", 0, 0, 9, 5, 0, [some 1], [], []⟩,
        ⟨"W", 0, 0, 9, 12, 5, [some 2], [], []⟩] true
      = addWellsRows [⟨"W", 0, 0, 9, 5, 0, [some 1], [], []⟩,
        ⟨"W", 0, 0, 9, 12, 5, [some 2], [], []⟩] false :=
  c9_gap_filling_idempotent
    [⟨"W", 0, 0, 9, 5, 0, [some 1], [], []⟩,
     ⟨"W", 0, 0, 9, 12, 5, [some 2], [], []⟩] (by decide)

/-- C10 — `add_wells_by_df` never mutates the frame the caller passed
in: the function copies the argument frame before any column assignment
or sort, every in-place operation hits the copy, and so every
pre-existing heap slot — in particular the argument itself — is
unchanged whether the call validates successfully or raises. -/
theorem c10_caller_frame_unchanged (st : DatasetState)
    (classes : List String) (hasVar : Bool) (nlay : Nat)
    (heap : List Frame) (ref : Nat) (fillTop : Bool) (i : Nat)
    (hi : i < heap.length) :
    ((add_wells_by_df st classes hasVar nlay heap ref fillTop).2.1)[i]?
      = heap[i]? := by
  have happ : (heap ++ [heap.getD ref ⟨[], []⟩])[i]? = heap[i]? :=
    List.getElem?_append_left hi
  have hset : ∀ F : Frame,
      ((heap ++ [heap.getD ref ⟨[], []⟩]).set heap.length F)[i]?
        = heap[i]? := by
    intro F
    rw [List.getElem?_set_ne (Nat.ne_of_gt hi)]
    exact happ
  simp only [add_wells_by_df]
  repeat' split
  · exact happ
  · exact happ
  · exact happ
  · exact happ
  · exact hset _

/-- Witness for C10: a one-frame heap with the required columns and no
rows; slot 0 is unchanged by the call. -/
theorem c10_caller_frame_unchanged_witness :
    ((add_wells_by_df ⟨0, []⟩ [] false 0
        [⟨["Location", "X", "Y", "Zland", "Depth"], []⟩] 0 false).2.1)[0]?
      = ([⟨["Location", "X", "Y", "Zland", "Depth"], []⟩] :
          List Frame)[0]? :=
  c10_caller_frame_unchanged ⟨0, []⟩ [] false 0
    [⟨["Location", "X", "Y", "Zland", "Depth"], []⟩] 0 false 0
    (by decide)

/-- C2 — in the table produced by `add_wells_by_df` with no explicit
point-index column, the point indices of each well (ID group) form the
contiguous sequence from 1 with no duplicates or gaps, listed in
nondecreasing bottom-depth order; this holds on the no-gap-filling path
and on the gap-filling path, which recomputes the indices after
synthesis. -/
theorem c2_point_indices (maxId : Nat) (rows : List Row) (fillTop : Bool)
    (g : Nat) :
    ((batchRows maxId rows fillTop).filter (fun e => e.1 == g)).map
        (fun e => e.2.1)
      = List.range' 1
          (((batchRows maxId rows fillTop).filter (fun e => e.1 == g)).length)
    ∧ ((batchRows maxId rows fillTop).filter (fun e => e.1 == g)).Pairwise
        (fun a b => a.2.2.depth ≤ b.2.2.depth) := by
  cases fillTop
  · exact point_index_spec (assignIDs rows) maxId g
  · exact point_index_spec
      (sortByIdDepth (assignIDs rows) ++
        fillNewRows (sortByIdDepth (assignIDs rows))) maxId g

theorem assignIDsAux_length (rows : List Row) :
    ∀ seen cnt, (assignIDsAux seen cnt rows).length = rows.length := by
  induction rows with
  | nil => intro seen cnt; rfl
  | cons r rs ih =>
      intro seen cnt
      by_cases hm : wkey r ∈ seen <;> simp [assignIDsAux, hm, ih]

theorem assignIDsAux_getElem? (rows : List Row) :
    ∀ seen cnt p, (assignIDsAux seen cnt rows)[p]?
      = (rows[p]?).map (fun r => (cnt + newKeys seen (rows.take (p + 1)), r)) := by
  induction rows with
  | nil => intro seen cnt p; simp [assignIDsAux]
  | cons r rs ih =>
      intro seen cnt p
      by_cases hm : wkey r ∈ seen
      · cases p with
        | zero => simp [assignIDsAux, hm, newKeys]
        | succ p =>
            have hk : cnt + newKeys seen ((r :: rs).take (p + 1 + 1))
                = cnt + newKeys seen (rs.take (p + 1)) := by
              rw [List.take_succ_cons]
              simp only [newKeys]
              rw [if_pos hm]
            have hl : (assignIDsAux seen cnt (r :: rs))[p + 1]?
                = (assignIDsAux seen cnt rs)[p]? := by
              simp [assignIDsAux, hm]
            rw [hl, ih seen cnt p, List.getElem?_cons_succ, hk]
      · cases p with
        | zero => simp [assignIDsAux, hm, newKeys]
        | succ p =>
            have hk : cnt + newKeys seen ((r :: rs).take (p + 1 + 1))
                = cnt + 1 + newKeys (wkey r :: seen) (rs.take (p + 1)) := by
              rw [List.take_succ_cons]
              simp only [newKeys]
              rw [if_neg hm]
              omega
            have hl : (assignIDsAux seen cnt (r :: rs))[p + 1]?
                = (assignIDsAux (wkey r :: seen) (cnt + 1) rs)[p]? := by
              simp [assignIDsAux, hm]
            rw [hl, ih (wkey r :: seen) (cnt + 1) p,
              List.getElem?_cons_succ, hk]

theorem newKeys_toFinset (rows : List Row) :
    ∀ seen, newKeys seen rows
      = (((rows.map wkey).toFinset) \ seen.toFinset).card := by
  induction rows with
  | nil => intro seen; simp [newKeys]
  | cons r rs ih =>
      intro seen
      by_cases hm : wkey r ∈ seen
      · have h1 : newKeys seen (r :: rs) = newKeys seen rs := by
          simp [newKeys, hm]
        rw [h1, ih seen, List.map_cons, List.toFinset_cons,
          Finset.insert_sdiff_of_mem _ (List.mem_toFinset.2 hm)]
      · have h1 : newKeys seen (r :: rs)
            = newKeys (wkey r :: seen) rs + 1 := by
          simp [newKeys, hm]
        rw [h1, ih (wkey r :: seen), List.map_cons, List.toFinset_cons,
          List.toFinset_cons,
          Finset.insert_sdiff_of_not_mem _
            (fun hx => hm (List.mem_toFinset.1 hx)),
          Finset.sdiff_insert]
        by_cases hk : wkey r ∈ (rs.map wkey).toFinset \ seen.toFinset
        · rw [Finset.insert_eq_self.2 hk, Finset.card_erase_of_mem hk]
          have := Finset.card_pos.2 ⟨_, hk⟩
          omega
        · rw [Finset.erase_eq_of_not_mem hk, Finset.card_insert_of_not_mem hk]

theorem newKeys_nil_eq_dedup (rows : List Row) :
    newKeys [] rows = (rows.map wkey).dedup.length := by
  rw [newKeys_toFinset]
  simp [List.card_toFinset]

theorem mem_take_keys {rows : List Row} {n : Nat} {a : String × ℚ × ℚ} :
    a ∈ ((rows.take n).map wkey).toFinset ↔
      ∃ m, ∃ hm : m < rows.length, m < n ∧ wkey (rows[m]) = a := by
  rw [List.mem_toFinset, List.mem_map]
  constructor
  · rintro ⟨r, hr, rfl⟩
    obtain ⟨m, hm, hma⟩ := List.mem_iff_getElem.1 hr
    have hmlen : m < rows.length := by
      rw [List.length_take] at hm
      omega
    have hmn : m < n := by
      rw [List.length_take] at hm
      omega
    refine ⟨m, hmlen, hmn, ?_⟩
    rw [← hma, List.getElem_take]
  · rintro ⟨m, hm, hmn, rfl⟩
    have hm2 : m < (rows.take n).length := by
      rw [List.length_take]
      omega
    refine ⟨(rows.take n)[m], List.mem_iff_getElem.2 ⟨m, hm2, rfl⟩, ?_⟩
    rw [List.getElem_take]

theorem cnt_mono (rows : List Row) {p q : Nat} (h : p ≤ q) :
    newKeys [] (rows.take (p + 1)) ≤ newKeys [] (rows.take (q + 1)) := by
  rw [newKeys_toFinset, newKeys_toFinset]
  simp only [List.toFinset_nil, Finset.sdiff_empty]
  apply Finset.card_le_card
  intro a ha
  rw [mem_take_keys] at ha ⊢
  obtain ⟨m, hm, hmn, rfl⟩ := ha
  exact ⟨m, hm, by omega, rfl⟩

theorem cnt_step (rows : List Row) (p : Nat) :
    newKeys [] (rows.take (p + 2)) ≤ newKeys [] (rows.take (p + 1)) + 1 := by
  rw [newKeys_toFinset, newKeys_toFinset]
  simp only [List.toFinset_nil, Finset.sdiff_empty]
  have hsub : ((rows.take (p + 2)).map wkey).toFinset ⊆
      insert (wkey (rows.getD (p + 1) default))
        ((rows.take (p + 1)).map wkey).toFinset := by
    intro a ha
    rw [mem_take_keys] at ha
    obtain ⟨m, hm, hmn, rfl⟩ := ha
    by_cases hmp : m < p + 1
    · exact Finset.mem_insert_of_mem (mem_take_keys.2 ⟨m, hm, hmp, rfl⟩)
    · have hme : m = p + 1 := by omega
      subst hme
      rw [List.getD_eq_getElem _ _ hm]
      exact Finset.mem_insert_self _ _
  calc ((rows.take (p + 2)).map wkey).toFinset.card
      ≤ (insert (wkey (rows.getD (p + 1) default))
          ((rows.take (p + 1)).map wkey).toFinset).card :=
        Finset.card_le_card hsub
    _ ≤ ((rows.take (p + 1)).map wkey).toFinset.card + 1 :=
        Finset.card_insert_le _ _

theorem cnt_eq_of_key_eq (rows : List Row) (hc : Contig rows) {p q : Nat}
    (hp : p < rows.length) (hq : q < rows.length) (hpq : p ≤ q)
    (hkey : wkey (rows[p]) = wkey (rows[q])) :
    newKeys [] (rows.take (p + 1)) = newKeys [] (rows.take (q + 1)) := by
  rw [newKeys_toFinset, newKeys_toFinset]
  simp only [List.toFinset_nil, Finset.sdiff_empty]
  have hK : ((rows.take (q + 1)).map wkey).toFinset
      = ((rows.take (p + 1)).map wkey).toFinset := by
    apply Finset.Subset.antisymm
    · intro a ha
      rw [mem_take_keys] at ha ⊢
      obtain ⟨m, hm, hmq, rfl⟩ := ha
      by_cases hmp : m < p + 1
      · exact ⟨m, hm, hmp, rfl⟩
      · have hcm := hc q hq m (by omega) p (by omega)
        rw [List.getD_eq_getElem _ _ hp, List.getD_eq_getElem _ _ hq,
          List.getD_eq_getElem _ _ hm] at hcm
        have hkm : wkey (rows[m]) = wkey (rows[p]) := hcm hkey
        exact ⟨p, hp, by omega, hkm.symm⟩
    · intro a ha
      rw [mem_take_keys] at ha ⊢
      obtain ⟨m, hm, hmp, rfl⟩ := ha
      exact ⟨m, hm, by omega, rfl⟩
  rw [hK]

theorem cnt_lt_of_key_ne (rows : List Row) (hc : Contig rows) {p q : Nat}
    (hp : p < rows.length) (hq : q < rows.length) (hpq : p < q)
    (hkey : wkey (rows[p]) ≠ wkey (rows[q])) :
    newKeys [] (rows.take (p + 1)) < newKeys [] (rows.take (q + 1)) := by
  rw [newKeys_toFinset, newKeys_toFinset]
  simp only [List.toFinset_nil, Finset.sdiff_empty]
  apply Finset.card_lt_card
  constructor
  · intro a ha
    rw [mem_take_keys] at ha ⊢
    obtain ⟨m, hm, hmn, rfl⟩ := ha
    exact ⟨m, hm, by omega, rfl⟩
  · intro hcontra
    have hqmem : wkey (rows[q])
        ∈ ((rows.take (q + 1)).map wkey).toFinset :=
      mem_take_keys.2 ⟨q, hq, by omega, rfl⟩
    have hpmem := hcontra hqmem
    rw [mem_take_keys] at hpmem
    obtain ⟨m, hm, hmp, hkm⟩ := hpmem
    have hcm := hc q hq p (by omega) m (by omega)
    rw [List.getD_eq_getElem _ _ hp, List.getD_eq_getElem _ _ hq,
      List.getD_eq_getElem _ _ hm] at hcm
    exact hkey ((hcm hkm).trans hkm)

theorem assignIDs_getElem? (rows : List Row) (p : Nat) :
    (assignIDs rows)[p]?
      = (rows[p]?).map (fun r => (newKeys [] (rows.take (p + 1)), r)) := by
  have h := assignIDsAux_getElem? rows [] 0 p
  simpa using h

theorem assignIDs_length (rows : List Row) :
    (assignIDs rows).length = rows.length :=
  assignIDsAux_length rows [] 0

theorem mem_assignIDs {rows : List Row} {e : Nat × Row} :
    e ∈ assignIDs rows ↔ ∃ p, ∃ hp : p < rows.length,
      e = (newKeys [] (rows.take (p + 1)), rows[p]) := by
  rw [List.mem_iff_getElem]
  constructor
  · rintro ⟨p, hp, he⟩
    have hp2 : p < rows.length := by
      rwa [assignIDs_length] at hp
    refine ⟨p, hp2, ?_⟩
    have hq : (assignIDs rows)[p]? = some e := by
      rw [List.getElem?_eq_getElem hp, he]
    rw [assignIDs_getElem?, List.getElem?_eq_getElem hp2] at hq
    simpa using hq.symm
  · rintro ⟨p, hp, rfl⟩
    have hp2 : p < (assignIDs rows).length := by
      rwa [assignIDs_length]
    refine ⟨p, hp2, ?_⟩
    have hq := assignIDs_getElem? rows p
    rw [List.getElem?_eq_getElem hp2, List.getElem?_eq_getElem hp] at hq
    simpa using hq

theorem cnt_one (rows : List Row) (hne : rows ≠ []) :
    newKeys [] (rows.take 1) = 1 := by
  cases rows with
  | nil => exact absurd rfl hne
  | cons r rs => simp [newKeys]

theorem cnt_pos (rows : List Row) {p : Nat} (hp : p < rows.length) :
    1 ≤ newKeys [] (rows.take (p + 1)) := by
  have hne : rows ≠ [] := by
    intro h
    rw [h] at hp
    cases hp
  have h0 := cnt_one rows hne
  have h1 := cnt_mono rows (Nat.zero_le p)
  simp only [Nat.zero_add] at h1
  omega

theorem cnt_le_total (rows : List Row) {p : Nat} (hp : p < rows.length) :
    newKeys [] (rows.take (p + 1)) ≤ newKeys [] rows := by
  have h := cnt_mono rows (show p ≤ rows.length - 1 by omega)
  rw [show rows.length - 1 + 1 = rows.length by omega,
    List.take_length] at h
  exact h

theorem nat_ivl (f : Nat → Nat) :
    ∀ n : Nat, f 0 = 1 → (∀ p, p < n → f (p + 1) ≤ f p + 1) →
    ∀ m, 1 ≤ m → m ≤ f n → ∃ p, p ≤ n ∧ f p = m := by
  intro n
  induction n with
  | zero =>
      intro h0 _ m h1 h2
      exact ⟨0, le_refl 0, by omega⟩
  | succ n ih =>
      intro h0 hstep m h1 h2
      by_cases hm : m ≤ f n
      · obtain ⟨p, hp, he⟩ := ih h0 (fun p hp => hstep p (by omega)) m h1 hm
        exact ⟨p, by omega, he⟩
      · have := hstep n (by omega)
        exact ⟨n + 1, le_refl _, by omega⟩

theorem exists_cnt (rows : List Row) (hne : rows ≠ []) (m : Nat)
    (h1 : 1 ≤ m) (h2 : m ≤ newKeys [] rows) :
    ∃ p, p < rows.length ∧ newKeys [] (rows.take (p + 1)) = m := by
  have hlen : 0 < rows.length := List.length_pos.2 hne
  have htot : newKeys [] (rows.take (rows.length - 1 + 1))
      = newKeys [] rows := by
    rw [show rows.length - 1 + 1 = rows.length by omega, List.take_length]
  obtain ⟨p, hp, he⟩ := nat_ivl (fun p => newKeys [] (rows.take (p + 1)))
    (rows.length - 1) (cnt_one rows hne)
    (fun p _ => cnt_step rows p) m h1
    (by show m ≤ newKeys [] (rows.take (rows.length - 1 + 1))
        rw [htot]
        exact h2)
  exact ⟨p, by omega, he⟩

theorem natMax_cons (x : Nat) (l : List Nat) :
    natMax (x :: l) = max x (natMax l) := rfl

theorem le_natMax_of_mem {l : List Nat} {x : Nat} (h : x ∈ l) :
    x ≤ natMax l := by
  induction l with
  | nil => cases h
  | cons y t ih =>
      rcases List.mem_cons.1 h with rfl | h2
      · exact le_max_left _ _
      · exact (ih h2).trans (le_max_right _ _)

theorem natMax_le {l : List Nat} {m : Nat} (h : ∀ x ∈ l, x ≤ m) :
    natMax l ≤ m := by
  induction l with
  | nil => exact Nat.zero_le m
  | cons y t ih =>
      rw [natMax_cons]
      exact max_le (h y (List.mem_cons_self y t))
        (ih (fun x hx => h x (List.mem_cons_of_mem y hx)))

theorem natMax_append (a b : List Nat) :
    natMax (a ++ b) = max (natMax a) (natMax b) := by
  induction a with
  | nil => simp [natMax]
  | cons x t ih =>
      rw [List.cons_append, natMax_cons, natMax_cons, ih, max_assoc]

theorem natMax_perm {l1 l2 : List Nat} (p : List.Perm l1 l2) :
    natMax l1 = natMax l2 := by
  induction p with
  | nil => rfl
  | cons x _ ih => rw [natMax_cons, natMax_cons, ih]
  | swap x y l =>
      rw [natMax_cons, natMax_cons, natMax_cons, natMax_cons, max_left_comm]
  | trans _ _ ih1 ih2 => exact ih1.trans ih2

theorem natMax_map_add (c : Nat) :
    ∀ l : List Nat, l ≠ [] →
      natMax (l.map (fun x => c + x)) = c + natMax l := by
  intro l
  induction l with
  | nil => intro h; exact absurd rfl h
  | cons x t ih =>
      intro _
      cases t with
      | nil => simp [natMax]
      | cons y u =>
          rw [List.map_cons, natMax_cons, natMax_cons,
            ih (by simp), max_add_add_left]

theorem natMax_assignIDsAux (rows : List Row) :
    ∀ seen cnt, rows ≠ [] →
      natMax ((assignIDsAux seen cnt rows).map (fun e => e.1))
        = cnt + newKeys seen rows := by
  induction rows with
  | nil => intro _ _ h; exact absurd rfl h
  | cons r rs ih =>
      intro seen cnt _
      by_cases hm : wkey r ∈ seen
      · cases rs with
        | nil => simp [assignIDsAux, hm, newKeys, natMax]
        | cons r2 t =>
            have h1 : newKeys seen (r :: r2 :: t) = newKeys seen (r2 :: t) := by
              simp [newKeys, hm]
            have h2 : (assignIDsAux seen cnt (r :: r2 :: t)).map
                  (fun e => e.1)
                = cnt :: (assignIDsAux seen cnt (r2 :: t)).map
                    (fun e => e.1) := by
              simp [assignIDsAux, hm]
            rw [h2, natMax_cons, ih seen cnt (by simp), h1]
            exact max_eq_right (Nat.le_add_right cnt _)
      · cases rs with
        | nil => simp [assignIDsAux, hm, newKeys, natMax]
        | cons r2 t =>
            have h1 : newKeys seen (r :: r2 :: t)
                = newKeys (wkey r :: seen) (r2 :: t) + 1 := by
              simp [newKeys, hm]
            have h2 : (assignIDsAux seen cnt (r :: r2 :: t)).map
                  (fun e => e.1)
                = (cnt + 1) :: (assignIDsAux (wkey r :: seen) (cnt + 1)
                    (r2 :: t)).map (fun e => e.1) := by
              simp [assignIDsAux, hm]
            rw [h2, natMax_cons, ih (wkey r :: seen) (cnt + 1) (by simp), h1]
            have := Nat.le_add_right (cnt + 1)
              (newKeys (wkey r :: seen) (r2 :: t))
            rw [max_eq_right this]
            omega

theorem mem_cumcount_strip {l : List (Nat × Row)} {e : Nat × Nat × Row}
    (h : e ∈ cumcount l) : (e.1, e.2.2) ∈ l := by
  rw [← cumcountAux_strip [] l]
  exact List.mem_map_of_mem _ h

theorem mem_cumcount_of_mem {l : List (Nat × Row)} {a : Nat} {r : Row}
    (h : (a, r) ∈ l) : ∃ n, (a, n, r) ∈ cumcount l := by
  rw [← cumcountAux_strip [] l] at h
  obtain ⟨e, he, hee⟩ := List.mem_map.1 h
  obtain ⟨i, n, rr⟩ := e
  simp only [Prod.mk.injEq] at hee
  obtain ⟨rfl, rfl⟩ := hee
  exact ⟨n, he⟩

theorem gapRowsAux_key {l : List Row} {r2 : Row} :
    ∀ {prev : ℚ}, r2 ∈ gapRowsAux prev l → ∃ s ∈ l, wkey s = wkey r2 := by
  induction l with
  | nil => intro prev h; cases h
  | cons s t ih =>
      intro prev h
      unfold gapRowsAux at h
      rcases List.mem_append.1 h with h1 | h2
      · by_cases hc : prev < s.top
        · rw [if_pos hc] at h1
          rw [List.mem_singleton.1 h1]
          exact ⟨s, List.mem_cons_self s t, rfl⟩
        · rw [if_neg hc] at h1
          cases h1
      · obtain ⟨s2, hs2, he⟩ := ih h2
        exact ⟨s2, List.mem_cons_of_mem s hs2, he⟩

theorem mem_rowsOf {l : List (Nat × Row)} {g : Nat} {s : Row}
    (h : s ∈ rowsOf l g) : (g, s) ∈ l := by
  unfold rowsOf at h
  obtain ⟨e, he, rfl⟩ := List.mem_map.1 h
  have hf := List.mem_filter.1 he
  have heg : e.1 = g := by simpa using hf.2
  obtain ⟨a, r⟩ := e
  cases heg
  exact hf.1

theorem mem_fillNewRows {d : List (Nat × Row)} {e : Nat × Row}
    (h : e ∈ fillNewRows d) : ∃ r2, (e.1, r2) ∈ d ∧ wkey r2 = wkey e.2 := by
  unfold fillNewRows at h
  generalize groupIds d = gs at h
  induction gs with
  | nil => cases h
  | cons g t ih =>
      unfold fillNewRowsGo at h
      rcases List.mem_append.1 h with h1 | h2
      · obtain ⟨r2, hr2, rfl⟩ := List.mem_map.1 h1
        obtain ⟨s, hs, hws⟩ := gapRowsAux_key hr2
        have hs2 : s ∈ rowsOf d g := by
          simpa [sortByDepth] using hs
        exact ⟨s, mem_rowsOf hs2, hws⟩
      · exact ih h2

theorem mem_addWellsRows_key {rows : List Row} {fillTop : Bool}
    {e : Nat × Nat × Row} (h : e ∈ addWellsRows rows fillTop) :
    ∃ r2, (e.1, r2) ∈ assignIDs rows ∧ wkey r2 = wkey e.2.2 := by
  cases fillTop
  · have h1 := mem_cumcount_strip h
    have h2 : (e.1, e.2.2) ∈ assignIDs rows := by
      simpa [sortByIdDepth] using h1
    exact ⟨e.2.2, h2, rfl⟩
  · have h1 := mem_cumcount_strip h
    have h2 : (e.1, e.2.2) ∈ sortByIdDepth (assignIDs rows) ++
        fillNewRows (sortByIdDepth (assignIDs rows)) := by
      simpa [sortByIdDepth] using h1
    rcases List.mem_append.1 h2 with h3 | h3
    · exact ⟨e.2.2, by simpa [sortByIdDepth] using h3, rfl⟩
    · obtain ⟨r2, hr2, hw⟩ := mem_fillNewRows h3
      exact ⟨r2, by simpa [sortByIdDepth] using hr2, hw⟩

theorem mem_addWellsRows_of_assign {rows : List Row} (fillTop : Bool)
    {a : Nat} {r : Row} (h : (a, r) ∈ assignIDs rows) :
    ∃ n, (a, n, r) ∈ addWellsRows rows fillTop := by
  cases fillTop
  · exact mem_cumcount_of_mem (by simpa [sortByIdDepth] using h)
  · apply mem_cumcount_of_mem
    have h1 : (a, r) ∈ sortByIdDepth (assignIDs rows) ++
        fillNewRows (sortByIdDepth (assignIDs rows)) :=
      List.mem_append_left _ (by simpa [sortByIdDepth] using h)
    simpa [sortByIdDepth] using h1

theorem assignIDs_key_iff (rows : List Row) (hc : Contig rows)
    {e e2 : Nat × Row} (h : e ∈ assignIDs rows) (h2 : e2 ∈ assignIDs rows) :
    wkey e.2 = wkey e2.2 ↔ e.1 = e2.1 := by
  obtain ⟨p, hp, rfl⟩ := mem_assignIDs.1 h
  obtain ⟨q, hq, rfl⟩ := mem_assignIDs.1 h2
  constructor
  · intro hkey
    rcases le_total p q with hpq | hpq
    · exact cnt_eq_of_key_eq rows hc hp hq hpq hkey
    · exact (cnt_eq_of_key_eq rows hc hq hp hpq hkey.symm).symm
  · intro hcnt
    by_contra hne
    rcases Nat.lt_trichotomy p q with hlt | hpq | hlt
    · exact absurd hcnt (Nat.ne_of_lt (cnt_lt_of_key_ne rows hc hp hq hlt hne))
    · subst hpq
      exact hne rfl
    · exact absurd hcnt.symm
        (Nat.ne_of_lt (cnt_lt_of_key_ne rows hc hq hp hlt
          (fun hx => hne hx.symm)))

theorem assignIDs_id_bounds {rows : List Row} {e : Nat × Row}
    (h : e ∈ assignIDs rows) : 1 ≤ e.1 ∧ e.1 ≤ newKeys [] rows := by
  obtain ⟨p, hp, rfl⟩ := mem_assignIDs.1 h
  exact ⟨cnt_pos rows hp, cnt_le_total rows hp⟩

theorem cumcount_length (l : List (Nat × Row)) :
    (cumcount l).length = l.length := by
  have h := congrArg List.length (cumcountAux_strip [] l)
  rwa [List.length_map] at h

theorem addWellsRows_ne_nil {rows : List Row} (hne : rows ≠ [])
    (fillTop : Bool) : addWellsRows rows fillTop ≠ [] := by
  have hlen : 0 < rows.length := List.length_pos.2 hne
  cases fillTop
  · show cumcount (sortByIdDepth (assignIDs rows)) ≠ []
    intro h
    have := congrArg List.length h
    rw [cumcount_length] at this
    simp only [sortByIdDepth, List.length_insertionSort, assignIDs_length,
      List.length_nil] at this
    omega
  · show cumcount (sortByIdDepth (sortByIdDepth (assignIDs rows) ++
      fillNewRows (sortByIdDepth (assignIDs rows)))) ≠ []
    intro h
    have := congrArg List.length h
    rw [cumcount_length] at this
    simp only [sortByIdDepth, List.length_insertionSort, List.length_append,
      assignIDs_length, List.length_nil] at this
    omega

theorem ids_cumcount (l : List (Nat × Row)) :
    (cumcount l).map (fun e => e.1) = l.map (fun e => e.1) := by
  have h := congrArg (List.map (fun e : Nat × Row => e.1))
    (cumcountAux_strip [] l)
  rwa [List.map_map] at h

theorem natMax_ids_addWellsRows {rows : List Row} (hne : rows ≠ [])
    (fillTop : Bool) :
    natMax ((addWellsRows rows fillTop).map (fun e => e.1))
      = newKeys [] rows := by
  have hassign : natMax ((assignIDs rows).map (fun e => e.1))
      = newKeys [] rows := by
    have h := natMax_assignIDsAux rows [] 0 hne
    simpa using h
  have hsortids : ∀ X : List (Nat × Row),
      natMax ((sortByIdDepth X).map (fun e => e.1))
        = natMax (X.map (fun e => e.1)) :=
    fun X => natMax_perm ((sortByIdDepth_perm X).map _)
  cases fillTop
  · show natMax ((cumcount (sortByIdDepth (assignIDs rows))).map
      (fun e => e.1)) = newKeys [] rows
    rw [ids_cumcount, hsortids, hassign]
  · show natMax ((cumcount (sortByIdDepth (sortByIdDepth (assignIDs rows) ++
      fillNewRows (sortByIdDepth (assignIDs rows))))).map (fun e => e.1))
      = newKeys [] rows
    rw [ids_cumcount, hsortids, List.map_append, natMax_append]
    have hfill : natMax ((fillNewRows (sortByIdDepth (assignIDs rows))).map
        (fun e => e.1))
        ≤ natMax ((sortByIdDepth (assignIDs rows)).map (fun e => e.1)) := by
      apply natMax_le
      intro x hx
      obtain ⟨e, he, rfl⟩ := List.mem_map.1 hx
      obtain ⟨r2, hr2, _⟩ := mem_fillNewRows he
      exact le_natMax_of_mem (List.mem_map.2 ⟨(e.1, r2), hr2, rfl⟩)
    rw [max_eq_left hfill, hsortids, hassign]

/-- C1 (amended) — when all rows sharing a `(name, x, y)` tuple are
contiguous in the input batch, `add_wells_by_df` assigns each distinct
tuple one ID, distinct tuples distinct IDs, the IDs are dense: they fill
exactly `max_id + 1 .. max_id + k` for `k` the number of distinct tuples
in the batch, and the post-merge `max_id` equals the pre-merge maximum
plus `k`. -/
theorem c1_amended (st : DatasetState) (rows : List Row) (fillTop : Bool)
    (hc : Contig rows) (hne : rows ≠ [])
    (hinv : ∀ e ∈ st.rows, e.1 ≤ st.maxId) :
    (∀ e ∈ batchRows st.maxId rows fillTop,
      ∀ e2 ∈ batchRows st.maxId rows fillTop,
        (wkey e.2.2 = wkey e2.2.2 ↔ e.1 = e2.1))
    ∧ (∀ e ∈ batchRows st.maxId rows fillTop,
        st.maxId + 1 ≤ e.1
          ∧ e.1 ≤ st.maxId + (rows.map wkey).dedup.length)
    ∧ (∀ m, 1 ≤ m → m ≤ (rows.map wkey).dedup.length →
        ∃ e ∈ batchRows st.maxId rows fillTop, e.1 = st.maxId + m)
    ∧ (mergeStore st rows fillTop).maxId
        = st.maxId + (rows.map wkey).dedup.length := by
  have hdedup : (rows.map wkey).dedup.length = newKeys [] rows :=
    (newKeys_nil_eq_dedup rows).symm
  refine ⟨?_, ?_, ?_, ?_⟩
  · intro e he e2 he2
    obtain ⟨f, hf, rfl⟩ := List.mem_map.1 he
    obtain ⟨f2, hf2, rfl⟩ := List.mem_map.1 he2
    obtain ⟨r1, hr1, hw1⟩ := mem_addWellsRows_key hf
    obtain ⟨r2, hr2, hw2⟩ := mem_addWellsRows_key hf2
    have hiff := assignIDs_key_iff rows hc hr1 hr2
    constructor
    · intro hk
      have hk2 : wkey r1 = wkey r2 := by rw [hw1, hw2]; exact hk
      have hid : f.1 = f2.1 := hiff.1 hk2
      show st.maxId + f.1 = st.maxId + f2.1
      omega
    · intro hk
      have hk0 : st.maxId + f.1 = st.maxId + f2.1 := hk
      have hid : f.1 = f2.1 := by omega
      have hk2 : wkey r1 = wkey r2 := hiff.2 hid
      show wkey f.2.2 = wkey f2.2.2
      rw [← hw1, ← hw2]
      exact hk2
  · intro e he
    obtain ⟨f, hf, rfl⟩ := List.mem_map.1 he
    obtain ⟨r1, hr1, _⟩ := mem_addWellsRows_key hf
    have hb1 : 1 ≤ f.1 := (assignIDs_id_bounds hr1).1
    have hb2 : f.1 ≤ newKeys [] rows := (assignIDs_id_bounds hr1).2
    rw [hdedup]
    exact ⟨by omega, by omega⟩
  · intro m h1 h2
    rw [hdedup] at h2
    obtain ⟨p, hp, he⟩ := exists_cnt rows hne m h1 h2
    have hmem : (m, rows[p]) ∈ assignIDs rows :=
      mem_assignIDs.2 ⟨p, hp, by rw [he]⟩
    obtain ⟨n, hn⟩ := mem_addWellsRows_of_assign fillTop hmem
    exact ⟨(st.maxId + m, n, rows[p]),
      List.mem_map.2 ⟨(m, n, rows[p]), hn, rfl⟩, rfl⟩
  · show natMax ((st.rows ++ batchRows st.maxId rows fillTop).map
      (fun e => e.1)) = _
    rw [List.map_append, natMax_append]
    have hbatch : natMax ((batchRows st.maxId rows fillTop).map
        (fun e => e.1)) = st.maxId + newKeys [] rows := by
      unfold batchRows
      rw [List.map_map]
      have hcomp : ((fun e : Nat × Nat × Row => e.1) ∘
            (fun e : Nat × Nat × Row => (st.maxId + e.1, e.2.1, e.2.2)))
          = (fun x : Nat => st.maxId + x) ∘
            (fun e : Nat × Nat × Row => e.1) := rfl
      rw [hcomp, ← List.map_map, natMax_map_add st.maxId _
        (fun hx => addWellsRows_ne_nil hne fillTop
          (List.map_eq_nil_iff.1 hx)),
        natMax_ids_addWellsRows hne fillTop]
    rw [hbatch]
    have hst : natMax (st.rows.map (fun e => e.1)) ≤ st.maxId :=
      natMax_le (fun x hx => by
        obtain ⟨e, he, rfl⟩ := List.mem_map.1 hx
        exact hinv e he)
    rw [hdedup]
    exact max_eq_right (le_trans hst (Nat.le_add_right _ _))

/-- Witness for C1 (amended): a single-row batch merged into an empty
store. -/
theorem c1_amended_witness :
    (∀ e ∈ batchRows (0 : Nat) [⟨"A", 0, 0, 0, 1, 0, [], [], []⟩] false,
      ∀ e2 ∈ batchRows (0 : Nat) [⟨"A", 0, 0, 0, 1, 0, [], [], []⟩] false,
        (wkey e.2.2 = wkey e2.2.2 ↔ e.1 = e2.1))
    ∧ (∀ e ∈ batchRows (0 : Nat) [⟨"A", 0, 0, 0, 1, 0, [], [], []⟩] false,
        (0 : Nat) + 1 ≤ e.1
          ∧ e.1 ≤ 0 + (([⟨"A", 0, 0, 0, 1, 0, [], [],
              []⟩] : List Row).map wkey).dedup.length)
    ∧ (∀ m, 1 ≤ m →
        m ≤ (([⟨"A", 0, 0, 0, 1, 0, [], [],
            []⟩] : List Row).map wkey).dedup.length →
        ∃ e ∈ batchRows (0 : Nat) [⟨"A", 0, 0, 0, 1, 0, [], [], []⟩] false,
          e.1 = 0 + m)
    ∧ (mergeStore ⟨0, []⟩ [⟨"A", 0, 0, 0, 1, 0, [], [], []⟩] false).maxId
        = 0 + (([⟨"A", 0, 0, 0, 1, 0, [], [],
            []⟩] : List Row).map wkey).dedup.length :=
  c1_amended ⟨0, []⟩ [⟨"A", 0, 0, 0, 1, 0, [], [], []⟩] false
    (by
      intro k hk j hj i hi _
      have hk0 : k = 0 := by
        simp only [List.length_cons, List.length_nil] at hk
        omega
      subst hk0
      have hj0 : j = 0 := by omega
      subst hj0
      have hi0 : i = 0 := by omega
      subst hi0
      rfl)
    (by decide) (fun e he => (List.not_mem_nil e he).elim)

/-- C1 — counterexample to unique dense IDs per distinct tuple: on a
batch whose two rows for well tuple `A` are separated by a row for well
tuple `B`, the rolling count assigns the tuple `A` rows the IDs 1 and 2,
and the tuple `B` row also ID 2, so no assignment of one ID per distinct
`(name, x, y)` tuple exists. -/
theorem c1_counterexample :
    let rA : Row := ⟨"A", 0, 0, 9, 5, 0, [], [], []⟩
    let rB : Row := ⟨"B", 1, 1, 9, 3, 0, [], [], []⟩
    let rA2 : Row := ⟨"A", 0, 0, 9, 12, 0, [], [], []⟩
    (mergeStore ⟨0, []⟩ [rA, rB, rA2] false).rows
        = [(1, 1, rA), (2, 1, rB), (2, 2, rA2)]
      ∧ wkey rA = wkey rA2 ∧ wkey rB ≠ wkey rA := by
  refine ⟨?_, rfl, ?_⟩ <;> decide

/-- C3 — counterexample to the variance part of the gap-row claim: the
synthetic row filling the gap above an interval carrying variance value
7 keeps that variance value; only the classification values are set to
the missing marker. -/
theorem c3_counterexample :
    let s : Row := ⟨"W", 0, 0, 9, 5, 2, [some 3], [some 7], []⟩
    (mergeStore ⟨0, []⟩ [s] true).rows
        = [(1, 1, ⟨"W", 0, 0, 9, 2, 0, [Option.none], [some 7], []⟩),
           (1, 2, s)]
      ∧ ([some (7 : ℚ)] : List (Option ℚ)) ≠ [Option.none] := by
  refine ⟨?_, ?_⟩ <;> decide

end T2py
